import Mathlib

/-!
Shallow embedding of `build_ru_verbs_1000_allinone.py`.

The script is a linear pipeline: build candidate (root_tag, headword, gloss)
triples from static tables (`build_candidate_forms`), select up to 1000 rows
while deduplicating by headword with a wraparound top-up loop (`main`), and
fill phrase templates per row position (`make_phrases`).

Mutable-list appends become list concatenation; the Python `set` of seen
headwords becomes a `List String` queried with `contains` (BEq on `String`);
the unbounded `while` loop of `main` becomes a fuel-indexed function that
returns `none` when the fuel runs out, so non-termination of the loop is
expressed as returning `none` for every fuel value.
-/

set_option maxRecDepth 100000

/-- A candidate triple `(root_tag, headword/infinitive, gloss)`. -/
abbrev Cand := String × String × String

/-- The `PREFIXES` table of the script (line 57). -/
def PREFIXES : List String :=
  ["по", "про", "пере", "под", "при", "вы", "за", "на", "от", "до", "об", "с", "у", "вз", "в"]

/-- The `BASE_VERBS` table of the script (lines 59-152). -/
def BASE_VERBS : List Cand := [
  ("дел-", "делать", "to do; to make"),
  ("сказ-", "сказать", "to say (pfv)"),
  ("говор-", "говорить", "to speak; to talk"),
  ("ид-", "идти", "to go (uni-dir)"),
  ("ход-", "ходить", "to go (multi-dir)"),
  ("вид-", "видеть", "to see"),
  ("смотр-", "смотреть", "to watch; to look"),
  ("дум-", "думать", "to think"),
  ("знал-", "знать", "to know"),
  ("пис-", "писать", "to write"),
  ("читал-", "читать", "to read"),
  ("работ-", "работать", "to work"),
  ("жил-", "жить", "to live"),
  ("хот-", "хотеть", "to want"),
  ("мочь", "мочь", "to be able; can"),
  ("брать", "брать", "to take"),
  ("взять", "взять", "to take (pfv)"),
  ("давать", "давать", "to give"),
  ("дать", "дать", "to give (pfv)"),
  ("есть", "есть", "to eat"),
  ("пить", "пить", "to drink"),
  ("сто-", "стоять", "to stand"),
  ("сид-", "сидеть", "to sit"),
  ("леж-", "лежать", "to lie (be lying)"),
  ("став-", "ставить", "to put; to set"),
  ("постав-", "поставить", "to put; to place (pfv)"),
  ("беж-", "бежать", "to run (uni-dir)"),
  ("езд-", "ездить", "to go by vehicle (multi-dir)"),
  ("ехать", "ехать", "to go by vehicle (uni-dir)"),
  ("начин-", "начинать", "to begin"),
  ("нач-", "начать", "to begin (pfv)"),
  ("конч-", "кончать", "to finish"),
  ("законч-", "закончить", "to finish (pfv)"),
  ("покуп-", "покупать", "to buy"),
  ("куп-", "купить", "to buy (pfv)"),
  ("продав-", "продавать", "to sell"),
  ("продать", "продать", "to sell (pfv)"),
  ("уч-", "учиться", "to study; to learn"),
  ("уч-", "учить", "to teach; to learn"),
  ("помог-", "помогать", "to help"),
  ("помочь", "помочь", "to help (pfv)"),
  ("игр-", "играть", "to play"),
  ("слуш-", "слушать", "to listen"),
  ("слыш-", "слышать", "to hear"),
  ("показыв-", "показывать", "to show"),
  ("показ-", "показать", "to show (pfv)"),
  ("брос-", "бросать", "to throw"),
  ("брос-", "бросить", "to throw (pfv)"),
  ("держ-", "держать", "to hold"),
  ("иск-", "искать", "to search; to look for"),
  ("най-", "найти", "to find (pfv)"),
  ("плат-", "платить", "to pay"),
  ("откры-", "открывать", "to open"),
  ("откры-", "открыть", "to open (pfv)"),
  ("закры-", "закрывать", "to close"),
  ("закры-", "закрыть", "to close (pfv)"),
  ("ждать", "ждать", "to wait"),
  ("приглаш-", "приглашать", "to invite"),
  ("приглас-", "пригласить", "to invite (pfv)"),
  ("провер-", "проверять", "to check; to verify"),
  ("провер-", "проверить", "to check (pfv)"),
  ("помнить", "помнить", "to remember"),
  ("забыв-", "забывать", "to forget"),
  ("забы-", "забыть", "to forget (pfv)"),
  ("спраш-", "спрашивать", "to ask (a question)"),
  ("спрос-", "спросить", "to ask (pfv)"),
  ("отвеч-", "отвечать", "to answer"),
  ("ответ-", "ответить", "to answer (pfv)"),
  ("жел-", "желать", "to wish"),
  ("звон-", "звонить", "to call (on the phone)"),
  ("позвон-", "позвонить", "to call (pfv)"),
  ("сним-", "снимать", "to remove; to take off; to rent"),
  ("снят-", "снять", "to remove; to take off (pfv)"),
  ("клад-", "класть", "to lay; to put"),
  ("полож-", "положить", "to put (pfv)"),
  ("мысл-", "мыслить", "to think (abstract)"),
  ("получ-", "получать", "to receive; to get"),
  ("получ-", "получить", "to receive (pfv)"),
  ("отправ-", "отправлять", "to send"),
  ("отправ-", "отправить", "to send (pfv)"),
  ("приним-", "принимать", "to accept; to take (medicine)"),
  ("прин-", "принять", "to accept; to take (pfv)"),
  ("реш-", "решать", "to decide; to solve"),
  ("реш-", "решить", "to decide; to solve (pfv)"),
  ("мен-", "менять", "to change"),
  ("помен-", "поменять", "to change (pfv)"),
  ("объясн-", "объяснять", "to explain"),
  ("объясн-", "объяснить", "to explain (pfv)"),
  ("готов-", "готовить", "to cook; to prepare"),
  ("приготов-", "приготовить", "to prepare (pfv)"),
  ("путеш-", "путешествовать", "to travel"),
  ("кат-", "кататься", "to ride; to skate")]

/-- The `CURATED_DERIVS` dict of the script (lines 154-272), as an association
list in the dict's insertion order (Python dicts iterate in insertion order). -/
def CURATED_DERIVS : List (String × List (String × String)) := [
  ("идти", [
    ("войти", "to enter (pfv)"),
    ("выйти", "to exit (pfv)"),
    ("прийти", "to come (pfv)"),
    ("уйти", "to leave (pfv)"),
    ("зайти", "to stop by (pfv)"),
    ("подойти", "to approach (pfv)"),
    ("перейти", "to cross (pfv)"),
    ("сойти", "to step down (pfv)"),
    ("найтись", "to be found (pfv)")]),
  ("ходить", [
    ("приходить", "to come"),
    ("уходить", "to leave"),
    ("заходить", "to drop by"),
    ("подходить", "to approach; to fit"),
    ("переходить", "to cross"),
    ("входить", "to enter"),
    ("выходить", "to exit; to go out"),
    ("обходить", "to go around"),
    ("проходить", "to pass; to go through"),
    ("доходить", "to reach; to get to"),
    ("отходить", "to move away; depart"),
    ("находить", "to find")]),
  ("говорить", [
    ("поговорить", "to have a talk (pfv)"),
    ("договориться", "to come to terms (pfv)"),
    ("оговориться", "to misspeak (pfv)"),
    ("переговорить", "to talk over (pfv)"),
    ("рассказать", "to tell (pfv)"),
    ("досказать", "to finish saying (pfv)"),
    ("сказать", "to say (pfv)")]),
  ("видеть", [
    ("увидеть", "to see (pfv)"),
    ("предвидеть", "to foresee"),
    ("перевидать", "to see many (colloq)"),
    ("видеться", "to see each other"),
    ("рассмотреть", "to examine (pfv)")]),
  ("писать", [
    ("записать", "to write down (pfv)"),
    ("подписать", "to sign (pfv)"),
    ("переписать", "to rewrite (pfv)"),
    ("выписать", "to prescribe; to write out (pfv)"),
    ("написать", "to write (pfv)"),
    ("дописать", "to finish writing (pfv)"),
    ("описать", "to describe (pfv)"),
    ("прописать", "to register; to prescribe (pfv)"),
    ("списать", "to copy; to plagiarize (pfv)")]),
  ("читать", [
    ("прочитать", "to read (pfv)"),
    ("перечитать", "to reread (pfv)"),
    ("зачитать", "to read out (pfv)"),
    ("дочитать", "to finish reading (pfv)"),
    ("начитать", "to record readings (pfv)")]),
  ("работать", [
    ("сработать", "to work out (pfv)"),
    ("переработать", "to rework; to overwork (pfv)"),
    ("заработать", "to earn; to start working (pfv)"),
    ("отработать", "to work off; to perfect (pfv)"),
    ("доработать", "to finalize; to refine (pfv)"),
    ("проработать", "to work through; to work for (time) (pfv)")]),
  ("есть", [
    ("съесть", "to eat up (pfv)"),
    ("доесть", "to finish eating (pfv)"),
    ("переесть", "to overeat (pfv)"),
    ("поесть", "to eat a bit (pfv)")]),
  ("пить", [
    ("выпить", "to drink up (pfv)"),
    ("попить", "to drink a bit (pfv)"),
    ("запить", "to wash down (pfv)"),
    ("перепить", "to outdrink; to overdrink (pfv)")]),
  ("брать", [
    ("взять", "to take (pfv)"),
    ("забрать", "to take away (pfv)"),
    ("собрать", "to gather (pfv)"),
    ("набрать", "to dial; to gather (pfv)"),
    ("подобрать", "to pick up (pfv)"),
    ("отобрать", "to select; to take away (pfv)"),
    ("перебрать", "to sort (pfv)"),
    ("выбрать", "to choose (pfv)")]),
  ("давать", [
    ("отдавать", "to give back"),
    ("передавать", "to pass; to transmit"),
    ("раздавать", "to hand out"),
    ("даваться", "to be given; to come easy")]),
  ("дать", [
    ("отдать", "to give back (pfv)"),
    ("передать", "to pass; to transmit (pfv)"),
    ("выдать", "to issue (pfv)"),
    ("передаться", "to be transmitted (pfv)")]),
  ("спрашивать", [
    ("спросить", "to ask (pfv)"),
    ("расспросить", "to question thoroughly (pfv)"),
    ("переспросить", "to ask again (pfv)")]),
  ("слушать", [
    ("послушать", "to listen (pfv)"),
    ("выслушать", "to listen out (pfv)"),
    ("прослушать", "to listen through; to miss (pfv)")]),
  ("смотреть", [
    ("посмотреть", "to watch (pfv)"),
    ("рассмотреть", "to examine (pfv)"),
    ("пересмотреть", "to reconsider; to rewatch (pfv)"),
    ("насмотреться", "to have seen enough (pfv)")])]

/-- The `PHRASE_TEMPLATES` table of the script (lines 274-280). -/
def PHRASE_TEMPLATES : List (String × String) := [
  ("Я хочу {inf}.", "I want {inf}."),
  ("Он может {inf}.", "He can {inf}."),
  ("Мы будем {inf} завтра.", "We will {inf} tomorrow."),
  ("Я не хочу {inf} сегодня.", "I not want {inf} today."),
  ("Пожалуйста, не надо {inf}.", "Please, not need {inf}.")]

/-- The headword (second component) of a candidate triple. -/
def Cand.verb (c : Cand) : String := c.2.1

/-- The root tag (first component) of a candidate triple. -/
def Cand.root (c : Cand) : String := c.1

/-- The gloss (third component) of a candidate triple. -/
def Cand.gloss (c : Cand) : String := c.2.2

/-- The first loop of `build_candidate_forms` (lines 285-286): every base
entry is emitted unchanged. Parameterised by the base-verb table. -/
def basePartP (bv : List Cand) : List Cand := bv

/-- The lookup `next((r for r, v, g in BASE_VERBS if v == base_inf), base_inf[:3] + "-")`
(line 289): the root of the first base entry whose headword equals `key`, or
the first 3 characters of `key` followed by `"-"` when none matches. -/
def resolveRoot (bv : List Cand) (key : String) : String :=
  match bv.find? (fun e => e.verb == key) with
  | some e => e.root
  | none => key.take 3 ++ "-"

/-- The second loop of `build_candidate_forms` (lines 288-291): for each
curated key, emit its derivative pairs with the resolved root. -/
def curatedPartP (bv : List Cand) (cd : List (String × List (String × String))) : List Cand :=
  cd.flatMap (fun kp => kp.2.map (fun vg => (resolveRoot bv kp.1, vg.1, vg.2)))

/-- The body of `add_pref` (lines 293-298) for one base entry: concatenate
each prefix, skip when the formed word equals the original, and append the
" (prefixed)" gloss marker. -/
def addPrefOne (prefs : List String) (e : Cand) : List Cand :=
  prefs.filterMap (fun p =>
    if p ++ e.verb == e.verb then none
    else some (e.root, p ++ e.verb, e.gloss ++ " (prefixed)"))

/-- The third loop of `build_candidate_forms` (lines 300-303): mechanical
prefixing, applied only to base entries whose headword has no curated entry. -/
def prefixedPartP (bv : List Cand) (cd : List (String × List (String × String)))
    (prefs : List String) : List Cand :=
  (bv.filter (fun e => !(cd.any (fun kp => kp.1 == e.verb)))).flatMap (addPrefOne prefs)

/-- The full emitted candidate sequence (the `candidates` list of
`build_candidate_forms` before deduplication, lines 283-303). -/
def candidatesRawP (bv : List Cand) (cd : List (String × List (String × String)))
    (prefs : List String) : List Cand :=
  basePartP bv ++ curatedPartP bv cd ++ prefixedPartP bv cd prefs

/-- The deduplication loop of `build_candidate_forms` (lines 305-311): keep a
candidate when its headword has not been seen, recording seen headwords. -/
def dedupGo (seen : List String) : List Cand → List Cand
  | [] => []
  | c :: rest =>
    if seen.contains c.verb then dedupGo seen rest
    else c :: dedupGo (c.verb :: seen) rest

/-- Deduplicate a candidate list by headword, first occurrence kept (lines 305-311). -/
def dedupByVerb (l : List Cand) : List Cand := dedupGo [] l

/-- `build_candidate_forms` parameterised by the three seed tables. -/
def build_candidate_formsP (bv : List Cand) (cd : List (String × List (String × String)))
    (prefs : List String) : List Cand :=
  dedupByVerb (candidatesRawP bv cd prefs)

/-- `build_candidate_forms()` of the script (lines 282-311), on the script's
fixed tables. -/
def build_candidate_forms : List Cand :=
  build_candidate_formsP BASE_VERBS CURATED_DERIVS PREFIXES

/-- Python `template.format(inf=verb)`: replace every `{inf}` slot. -/
def fillSlot (template verb : String) : String := template.replace "{inf}" verb

/-- `make_phrases` parameterised by the template table (lines 313-315):
pick template `idx % len(templates)` and fill both of its slots. -/
def make_phrasesP (templates : List (String × String)) (verb : String) (idx : Nat) :
    String × String :=
  let t := templates.getD (idx % templates.length) ("", "")
  (fillSlot t.1 verb, fillSlot t.2 verb)

/-- `make_phrases(verb, idx)` of the script (lines 313-315). -/
def make_phrases (verb : String) (idx : Nat) : String × String :=
  make_phrasesP PHRASE_TEMPLATES verb idx

/-- One output row of the pipeline: the dict built at lines 417-423 / 434-440,
with the CSV field names. -/
structure Row where
  root_tag : String
  russian : String
  english_gloss : String
  phrase_ru : String
  literal_en : String
deriving DecidableEq, Repr

/-- Build the row appended for candidate `c` when `len(rows) = idx`
(lines 416-423 and 433-440). -/
def mkRowP (templates : List (String × String)) (c : Cand) (idx : Nat) : Row :=
  let pr := make_phrasesP templates c.verb idx
  ⟨c.root, c.verb, c.gloss, pr.1, pr.2⟩

/-- The first selection loop of `main` (lines 410-425): walk the candidates,
skip seen headwords, append a row per new headword, break once `target` rows
are collected. Returns the rows and the seen set. -/
def firstPassGo (templates : List (String × String)) (target : Nat) :
    List Cand → List Row → List String → List Row × List String
  | [], rows, seen => (rows, seen)
  | c :: rest, rows, seen =>
    if seen.contains c.verb then firstPassGo templates target rest rows seen
    else
      let rows2 := rows ++ [mkRowP templates c rows.length]
      if target ≤ rows2.length then (rows2, c.verb :: seen)
      else firstPassGo templates target rest rows2 (c.verb :: seen)

/-- The wraparound `while len(rows) < 1000` loop of `main` (lines 428-441),
fuel-indexed: `none` means the fuel ran out with the guard still true, so a
result `none` for every fuel value models non-termination of the loop. -/
def wrapGo (templates : List (String × String)) (target : Nat) (cands : List Cand) :
    Nat → Nat → List Row → List String → Option (List Row × List String)
  | 0, _, rows, seen => if target ≤ rows.length then some (rows, seen) else none
  | f + 1, i, rows, seen =>
    if target ≤ rows.length then some (rows, seen)
    else
      let c := cands.getD (i % cands.length) ("", "", "")
      if seen.contains c.verb then wrapGo templates target cands f (i + 1) rows seen
      else wrapGo templates target cands f (i + 1)
        (rows ++ [mkRowP templates c rows.length]) (c.verb :: seen)

/-- The whole row-selection phase of `main` (lines 410-441): first pass, then
the wraparound loop. -/
def selectRowsP (templates : List (String × String)) (target : Nat) (cands : List Cand)
    (fuel : Nat) : Option (List Row) :=
  let fp := firstPassGo templates target cands [] []
  (wrapGo templates target cands fuel 0 fp.1 fp.2).map Prod.fst

/-- The `rows` list that `main` hands to the CSV writer and `build_anki`
(lines 407-441), for the script's fixed tables and target 1000. -/
def mainRows (fuel : Nat) : Option (List Row) :=
  selectRowsP PHRASE_TEMPLATES 1000 build_candidate_forms fuel

/-- Row generation of `main` as a function of the resolved audio mode
("gtts", "espeak" or "none", lines 401-441): the audio mode is computed at
lines 401-405 and first read again only inside `build_anki` (line 452), after
`rows` is complete, so row construction does not depend on it. -/
def mainRowsWithAudioMode (_audioMode : String) (fuel : Nat) : Option (List Row) :=
  selectRowsP PHRASE_TEMPLATES 1000 build_candidate_forms fuel

/-- The whole core pipeline (Form Generator, Deduplicator/Selector, Phrase
Templater) as a function of the four seed tables, the target count and the
loop fuel. `main` is this at the script's fixed tables, target 1000. -/
def pipelineP (bv : List Cand) (cd : List (String × List (String × String)))
    (prefs : List String) (templates : List (String × String)) (target fuel : Nat) :
    Option (List Row) :=
  selectRowsP templates target (build_candidate_formsP bv cd prefs) fuel

/-- Deduplication by headword as the spec words it: keep the first occurrence
of each headword, dropping every later candidate with the same headword. -/
def dedupSpecByVerb (l : List Cand) : List Cand :=
  match l with
  | [] => []
  | c :: rest => c :: dedupSpecByVerb (rest.filter (fun d => !(d.verb == c.verb)))
termination_by l.length
decreasing_by
  simp only [List.length_cons]
  exact Nat.lt_succ_of_le (List.length_filter_le _ _)

/-- The row sequence obtained by templating a candidate list starting at
position `start`: candidate `k` of the list is paired with the phrases of
template index `(start + k) % len(templates)`. -/
def rowsOf (templates : List (String × String)) (cands : List Cand) (start : Nat) :
    List Row :=
  match cands with
  | [] => []
  | c :: rest => mkRowP templates c start :: rowsOf templates rest (start + 1)

/-! ### Lemmas about the deduplication step -/

theorem contains_eq_decide_mem (seen : List String) (v : String) :
    seen.contains v = decide (v ∈ seen) := by
  induction seen with
  | nil => rfl
  | cons a as ih => simp [List.contains_cons, ih, List.mem_cons]

theorem dedupGo_nil (seen : List String) : dedupGo seen [] = [] := rfl

theorem dedupGo_cons_mem {seen : List String} {c : Cand} {rest : List Cand}
    (h : c.verb ∈ seen) : dedupGo seen (c :: rest) = dedupGo seen rest := by
  rw [dedupGo, contains_eq_decide_mem]
  simp [h]

theorem dedupGo_cons_not_mem {seen : List String} {c : Cand} {rest : List Cand}
    (h : c.verb ∉ seen) : dedupGo seen (c :: rest) = c :: dedupGo (c.verb :: seen) rest := by
  rw [dedupGo, contains_eq_decide_mem]
  simp [h]

theorem dedupGo_nodup_and_fresh (l : List Cand) : ∀ seen : List String,
    ((dedupGo seen l).map Cand.verb).Nodup ∧
      ∀ c ∈ dedupGo seen l, c.verb ∉ seen := by
  induction l with
  | nil =>
    intro seen
    exact ⟨List.nodup_nil, by intro c hc; cases hc⟩
  | cons c rest ih =>
    intro seen
    by_cases hsc : c.verb ∈ seen
    · rw [dedupGo_cons_mem hsc]
      exact ih seen
    · rw [dedupGo_cons_not_mem hsc]
      obtain ⟨hnd, hfresh⟩ := ih (c.verb :: seen)
      have hfresh2 : ∀ d ∈ dedupGo (c.verb :: seen) rest,
          d.verb ≠ c.verb ∧ d.verb ∉ seen := by
        intro d hd
        have := hfresh d hd
        simp only [List.mem_cons, not_or] at this
        exact this
      constructor
      · simp only [List.map_cons, List.nodup_cons]
        refine ⟨?_, hnd⟩
        intro hmem
        obtain ⟨d, hd, hdv⟩ := List.mem_map.mp hmem
        exact (hfresh2 d hd).1 hdv
      · intro d hd
        rcases List.mem_cons.mp hd with rfl | hd
        · exact hsc
        · exact (hfresh2 d hd).2

/-- The headwords of the deduplicated candidate list are pairwise distinct. -/
theorem dedupByVerb_verbs_nodup (l : List Cand) :
    ((dedupByVerb l).map Cand.verb).Nodup :=
  (dedupGo_nodup_and_fresh l []).1

theorem dedupSpecByVerb_nil : dedupSpecByVerb [] = [] := by
  rw [dedupSpecByVerb]

theorem dedupSpecByVerb_cons (c : Cand) (rest : List Cand) :
    dedupSpecByVerb (c :: rest) =
      c :: dedupSpecByVerb (rest.filter (fun d => !(d.verb == c.verb))) := by
  rw [dedupSpecByVerb]

theorem dedupGo_eq_spec (l : List Cand) : ∀ seen : List String,
    dedupGo seen l = dedupSpecByVerb (l.filter (fun c => !(seen.contains c.verb))) := by
  induction l with
  | nil =>
    intro seen
    rw [List.filter_nil, dedupGo_nil, dedupSpecByVerb_nil]
  | cons c rest ih =>
    intro seen
    by_cases hsc : c.verb ∈ seen
    · have hb : (!(seen.contains c.verb)) = false := by
        rw [contains_eq_decide_mem]; simp [hsc]
      rw [dedupGo_cons_mem hsc, List.filter_cons, hb, if_neg (by simp)]
      exact ih seen
    · have hb : (!(seen.contains c.verb)) = true := by
        rw [contains_eq_decide_mem]; simp [hsc]
      rw [dedupGo_cons_not_mem hsc, List.filter_cons, hb, if_pos rfl,
        dedupSpecByVerb_cons, List.filter_filter, ih (c.verb :: seen)]
      congr 2
      apply List.filter_congr
      intro d _
      rw [contains_eq_decide_mem, contains_eq_decide_mem]
      by_cases hd : d.verb = c.verb
      · simp [hd]
      · simp [hd, hsc, List.mem_cons]

/-! ### Structural lemmas about the three generator parts -/

theorem mem_prefixedPartP {bv : List Cand} {cd : List (String × List (String × String))}
    {prefs : List String} {c : Cand} (h : c ∈ prefixedPartP bv cd prefs) :
    ∃ e, e ∈ bv ∧ (cd.any (fun kp => kp.1 == e.verb)) = false ∧
      ∃ p, p ∈ prefs ∧ p ++ e.verb ≠ e.verb ∧
        c = (e.root, p ++ e.verb, e.gloss ++ " (prefixed)") := by
  rw [prefixedPartP] at h
  obtain ⟨e, he, hc⟩ := List.mem_flatMap.mp h
  obtain ⟨hebv, hecd⟩ := List.mem_filter.mp he
  rw [addPrefOne] at hc
  obtain ⟨p, hp, hpc⟩ := List.mem_filterMap.mp hc
  refine ⟨e, hebv, by simpa using hecd, p, hp, ?_⟩
  by_cases hq : (p ++ e.verb == e.verb) = true
  · rw [if_pos hq] at hpc
    cases hpc
  · rw [if_neg hq] at hpc
    have hne : p ++ e.verb ≠ e.verb := by simpa using hq
    exact ⟨hne, (Option.some.inj hpc).symm⟩

theorem mem_curatedPartP {bv : List Cand} {cd : List (String × List (String × String))}
    {c : Cand} (h : c ∈ curatedPartP bv cd) :
    ∃ kp, kp ∈ cd ∧ ∃ vg, vg ∈ kp.2 ∧ c = (resolveRoot bv kp.1, vg.1, vg.2) := by
  rw [curatedPartP] at h
  obtain ⟨kp, hkp, hc⟩ := List.mem_flatMap.mp h
  obtain ⟨vg, hvg, hvc⟩ := List.mem_map.mp hc
  exact ⟨kp, hkp, vg, hvg, hvc.symm⟩

/-- The root lookup of the curated loop: either there is a first base entry
whose headword equals the key and its root is returned, or no base entry
matches and the truncation fallback is returned. -/
theorem resolveRoot_cases (bv : List Cand) (key : String) :
    (∃ l₁ e l₂, bv = l₁ ++ e :: l₂ ∧ e.verb = key ∧ resolveRoot bv key = e.root ∧
      ∀ x ∈ l₁, x.verb ≠ key) ∨
    ((∀ x ∈ bv, x.verb ≠ key) ∧ resolveRoot bv key = key.take 3 ++ "-") := by
  induction bv with
  | nil =>
    right
    exact ⟨(by intro x hx; cases hx), rfl⟩
  | cons a rest ih =>
    by_cases h : a.verb = key
    · left
      refine ⟨[], a, rest, rfl, h, ?_, by intro x hx; cases hx⟩
      rw [resolveRoot, List.find?_cons_of_pos _ (by simp [h])]
    · have hstep : resolveRoot (a :: rest) key = resolveRoot rest key := by
        rw [resolveRoot, resolveRoot, List.find?_cons_of_neg _ (by simp [h])]
      rcases ih with ⟨l₁, e, l₂, hbv, hev, hres, hfirst⟩ | ⟨hnone, hres⟩
      · left
        refine ⟨a :: l₁, e, l₂, by rw [hbv]; rfl, hev, by rw [hstep, hres], ?_⟩
        intro x hx
        rcases List.mem_cons.mp hx with rfl | hx
        · exact h
        · exact hfirst x hx
      · right
        refine ⟨?_, by rw [hstep, hres]⟩
        intro x hx
        rcases List.mem_cons.mp hx with rfl | hx
        · exact h
        · exact hnone x hx

/-- The fallback root (first 3 characters of the key, then "-") is never the
empty string. -/
theorem fallback_root_ne_empty (key : String) : key.take 3 ++ "-" ≠ "" := by
  intro h
  have hd := congrArg String.data h
  rw [String.data_append] at hd
  have h2 := List.append_eq_nil.mp hd
  cases h2.2

/-- The deduplication loop of the source equals the spec's "keep the first
occurrence of each headword" function. -/
theorem dedupByVerb_eq_spec (l : List Cand) : dedupByVerb l = dedupSpecByVerb l := by
  rw [dedupByVerb, dedupGo_eq_spec l []]
  congr 1
  have : (fun (c : Cand) => !(([] : List String).contains c.verb)) = fun _ => true := by
    funext c
    rfl
  rw [this, List.filter_true]

/-! ### Lemmas about the selection loops -/

theorem rowsOf_nil (templates : List (String × String)) (start : Nat) :
    rowsOf templates [] start = [] := rfl

theorem rowsOf_cons (templates : List (String × String)) (c : Cand) (rest : List Cand)
    (start : Nat) :
    rowsOf templates (c :: rest) start =
      mkRowP templates c start :: rowsOf templates rest (start + 1) := rfl

theorem rowsOf_length (templates : List (String × String)) (l : List Cand) :
    ∀ start : Nat, (rowsOf templates l start).length = l.length := by
  induction l with
  | nil => intro start; rfl
  | cons c rest ih =>
    intro start
    rw [rowsOf_cons, List.length_cons, List.length_cons, ih]

theorem firstPassGo_nil (templates : List (String × String)) (target : Nat)
    (rows : List Row) (seen : List String) :
    firstPassGo templates target [] rows seen = (rows, seen) := rfl

theorem firstPassGo_cons_mem {templates : List (String × String)} {target : Nat}
    {c : Cand} {rest : List Cand} {rows : List Row} {seen : List String}
    (h : c.verb ∈ seen) :
    firstPassGo templates target (c :: rest) rows seen =
      firstPassGo templates target rest rows seen := by
  rw [firstPassGo, contains_eq_decide_mem]
  simp [h]

theorem firstPassGo_cons_break {templates : List (String × String)} {target : Nat}
    {c : Cand} {rest : List Cand} {rows : List Row} {seen : List String}
    (h : c.verb ∉ seen) (hlen : target ≤ rows.length + 1) :
    firstPassGo templates target (c :: rest) rows seen =
      (rows ++ [mkRowP templates c rows.length], c.verb :: seen) := by
  rw [firstPassGo, contains_eq_decide_mem]
  simp only [h, decide_False, Bool.false_eq_true, if_false]
  rw [if_pos (by simp [List.length_append]; omega)]

theorem firstPassGo_cons_go {templates : List (String × String)} {target : Nat}
    {c : Cand} {rest : List Cand} {rows : List Row} {seen : List String}
    (h : c.verb ∉ seen) (hlen : rows.length + 1 < target) :
    firstPassGo templates target (c :: rest) rows seen =
      firstPassGo templates target rest (rows ++ [mkRowP templates c rows.length])
        (c.verb :: seen) := by
  rw [firstPassGo, contains_eq_decide_mem]
  simp only [h, decide_False, Bool.false_eq_true, if_false]
  rw [if_neg (by simp [List.length_append]; omega)]

theorem firstPassGo_char (templates : List (String × String)) (target : Nat)
    (l : List Cand) : ∀ (rows : List Row) (seen : List String),
    rows.length < target →
    (∀ c ∈ l, c.verb ∉ seen) →
    ((l.map Cand.verb).Nodup) →
    firstPassGo templates target l rows seen =
      (rows ++ rowsOf templates (l.take (target - rows.length)) rows.length,
       ((l.take (target - rows.length)).map Cand.verb).reverse ++ seen) := by
  induction l with
  | nil =>
    intro rows seen _ _ _
    simp [firstPassGo_nil, rowsOf_nil]
  | cons c rest ih =>
    intro rows seen hlen hfresh hnd
    have hcv : c.verb ∉ seen := hfresh c (List.mem_cons_self c rest)
    by_cases hbreak : target ≤ rows.length + 1
    · have hk : target - rows.length = 1 := by omega
      rw [firstPassGo_cons_break hcv hbreak, hk, List.take_succ_cons, List.take_zero,
        rowsOf_cons, rowsOf_nil]
      simp
    · have h2 : rows.length + 1 < target := by omega
      rw [firstPassGo_cons_go hcv h2]
      have hndc : c.verb ∉ rest.map Cand.verb ∧ (rest.map Cand.verb).Nodup := by
        rw [List.map_cons, List.nodup_cons] at hnd
        exact hnd
      have hfresh2 : ∀ d ∈ rest, d.verb ∉ (c.verb :: seen) := by
        intro d hd hmem
        rcases List.mem_cons.mp hmem with hdc | hds
        · exact hndc.1 (hdc ▸ List.mem_map_of_mem Cand.verb hd)
        · exact hfresh d (List.mem_cons_of_mem c hd) hds
      have hlen2 : (rows ++ [mkRowP templates c rows.length]).length < target := by
        simp [List.length_append]
        omega
      rw [ih _ _ hlen2 hfresh2 hndc.2]
      have hlen3 : (rows ++ [mkRowP templates c rows.length]).length = rows.length + 1 := by
        simp [List.length_append]
      rw [hlen3]
      have hk1 : target - rows.length = (target - (rows.length + 1)) + 1 := by omega
      rw [hk1, List.take_succ_cons, rowsOf_cons, List.map_cons, List.reverse_cons]
      simp [List.append_assoc]

theorem wrapGo_of_le {templates : List (String × String)} {target : Nat} {cands : List Cand}
    {fuel i : Nat} {rows : List Row} {seen : List String} (h : target ≤ rows.length) :
    wrapGo templates target cands fuel i rows seen = some (rows, seen) := by
  cases fuel with
  | zero => rw [wrapGo, if_pos h]
  | succ f => rw [wrapGo, if_pos h]

theorem getD_mem_of_ne_nil {cands : List Cand} (hne : cands ≠ []) (i : Nat) :
    cands.getD (i % cands.length) ("", "", "") ∈ cands := by
  have hpos : 0 < cands.length := List.length_pos.mpr hne
  have hlt : i % cands.length < cands.length := Nat.mod_lt _ hpos
  rw [List.getD_eq_getElem?_getD, List.getElem?_eq_getElem hlt, Option.getD_some]
  exact List.getElem_mem hlt

theorem wrapGo_none_of_all_seen (templates : List (String × String)) (target : Nat)
    (cands : List Cand) (hne : cands ≠ []) : ∀ (fuel i : Nat) (rows : List Row)
    (seen : List String), rows.length < target →
    (∀ c ∈ cands, c.verb ∈ seen) →
    wrapGo templates target cands fuel i rows seen = none := by
  intro fuel
  induction fuel with
  | zero =>
    intro i rows seen hlen _
    rw [wrapGo, if_neg (by omega)]
  | succ f ihf =>
    intro i rows seen hlen hall
    rw [wrapGo, if_neg (by omega)]
    have hc := getD_mem_of_ne_nil hne i
    simp only [contains_eq_decide_mem, hall _ hc, decide_True, if_true]
    exact ihf (i + 1) rows seen hlen hall

/-- Characterization of the whole selection phase on a candidate list whose
headwords are pairwise distinct (as `build_candidate_forms` always is): the
duplicate check never skips, the first pass returns the first
`min(target, pool size)` candidates templated in order, and the wraparound
pass never appends a row — it returns immediately when `target` rows exist,
and otherwise never terminates (`none` for every fuel). -/
theorem selectRowsP_char (templates : List (String × String)) (cands : List Cand)
    (target : Nat) (htpos : 0 < target) (hnd : (cands.map Cand.verb).Nodup)
    (hne : cands ≠ []) (fuel : Nat) :
    selectRowsP templates target cands fuel =
      if target ≤ cands.length then some (rowsOf templates (cands.take target) 0)
      else none := by
  rw [selectRowsP]
  rw [firstPassGo_char templates target cands [] [] (by simpa using htpos)
    (by intro c _ hc; cases hc) hnd]
  simp only [List.nil_append, List.append_nil, Nat.sub_zero, List.length_nil]
  by_cases hcl : target ≤ cands.length
  · rw [if_pos hcl]
    have hlen : (rowsOf templates (cands.take target) 0).length = target := by
      rw [rowsOf_length, List.length_take]
      omega
    rw [wrapGo_of_le (by omega)]
    rfl
  · rw [if_neg hcl]
    have htk : cands.take target = cands := List.take_of_length_le (by omega)
    rw [htk]
    have hlen : (rowsOf templates cands 0).length = cands.length := rowsOf_length _ _ _
    rw [wrapGo_none_of_all_seen templates target cands hne fuel 0 _ _ (by omega) ?_]
    · rfl
    · intro c hc
      rw [List.mem_reverse]
      exact List.mem_map_of_mem Cand.verb hc

/-! ### Invariants carried through the selection loops -/

/-- Selection invariant: row headwords are pairwise distinct and every row's
headword has been recorded in the seen set. -/
def RowsInv (rows : List Row) (seen : List String) : Prop :=
  (rows.map Row.russian).Nodup ∧ ∀ r ∈ rows, r.russian ∈ seen

theorem rowsInv_nil : RowsInv [] [] :=
  ⟨List.nodup_nil, by intro r hr; cases hr⟩

theorem rowsInv_push {rows : List Row} {seen : List String} (h : RowsInv rows seen)
    {c : Cand} (hc : c.verb ∉ seen) (templates : List (String × String)) :
    RowsInv (rows ++ [mkRowP templates c rows.length]) (c.verb :: seen) := by
  obtain ⟨hnd, hsub⟩ := h
  constructor
  · rw [List.map_append]
    rw [List.nodup_append]
    refine ⟨hnd, List.nodup_singleton _, ?_⟩
    intro v hv hv2
    have hvc : v = c.verb := by simpa using hv2
    obtain ⟨r, hr, hrv⟩ := List.mem_map.mp hv
    exact hc (hvc ▸ hrv ▸ hsub r hr)
  · intro r hr
    rcases List.mem_append.mp hr with hr | hr
    · exact List.mem_cons_of_mem _ (hsub r hr)
    · have : r = mkRowP templates c rows.length := by simpa using hr
      rw [this]
      exact List.mem_cons_self _ _

theorem firstPassGo_inv (templates : List (String × String)) (target : Nat)
    (l : List Cand) : ∀ (rows : List Row) (seen : List String), RowsInv rows seen →
    RowsInv (firstPassGo templates target l rows seen).1
      (firstPassGo templates target l rows seen).2 := by
  induction l with
  | nil =>
    intro rows seen h
    rw [firstPassGo_nil]
    exact h
  | cons c rest ih =>
    intro rows seen h
    by_cases hcv : c.verb ∈ seen
    · rw [firstPassGo_cons_mem hcv]
      exact ih _ _ h
    · by_cases hbreak : target ≤ rows.length + 1
      · rw [firstPassGo_cons_break hcv hbreak]
        exact rowsInv_push h hcv templates
      · rw [firstPassGo_cons_go hcv (by omega)]
        exact ih _ _ (rowsInv_push h hcv templates)

theorem wrapGo_inv (templates : List (String × String)) (target : Nat)
    (cands : List Cand) : ∀ (fuel i : Nat) (rows : List Row) (seen : List String)
    (res : List Row × List String), RowsInv rows seen →
    wrapGo templates target cands fuel i rows seen = some res →
    RowsInv res.1 res.2 := by
  intro fuel
  induction fuel with
  | zero =>
    intro i rows seen res h hw
    rw [wrapGo] at hw
    by_cases hg : target ≤ rows.length
    · rw [if_pos hg] at hw
      cases hw
      exact h
    · rw [if_neg hg] at hw
      cases hw
  | succ f ihf =>
    intro i rows seen res h hw
    rw [wrapGo] at hw
    by_cases hg : target ≤ rows.length
    · rw [if_pos hg] at hw
      cases hw
      exact h
    · rw [if_neg hg] at hw
      simp only [contains_eq_decide_mem] at hw
      by_cases hcv : (cands.getD (i % cands.length) ("", "", "")).verb ∈ seen
      · simp only [hcv, decide_True, if_true] at hw
        exact ihf _ _ _ _ h hw
      · simp only [hcv, decide_False, Bool.false_eq_true, if_false] at hw
        exact ihf _ _ _ _ (rowsInv_push h hcv templates) hw

/-- Every selection result has pairwise-distinct headwords. -/
theorem selectRowsP_russians_nodup (templates : List (String × String)) (target : Nat)
    (cands : List Cand) (fuel : Nat) (rows : List Row)
    (h : selectRowsP templates target cands fuel = some rows) :
    (rows.map Row.russian).Nodup := by
  rw [selectRowsP] at h
  obtain ⟨res, hres, hmap⟩ := Option.map_eq_some'.mp h
  have h1 := firstPassGo_inv templates target cands [] [] rowsInv_nil
  have h2 := wrapGo_inv templates target cands fuel 0 _ _ res h1 hres
  rw [← hmap]
  exact h2.1

/-- Positional template invariant: the phrases of the row at position `i` come
from template index `i % len(templates)` applied to that row's headword. -/
def TemplatedBy (templates : List (String × String)) (rows : List Row) : Prop :=
  ∀ (i : Nat) (h : i < rows.length),
    rows[i].phrase_ru =
      fillSlot (templates.getD (i % templates.length) ("", "")).1 rows[i].russian ∧
    rows[i].literal_en =
      fillSlot (templates.getD (i % templates.length) ("", "")).2 rows[i].russian

theorem templatedBy_nil (templates : List (String × String)) : TemplatedBy templates [] := by
  intro i h
  cases h

theorem templatedBy_push {templates : List (String × String)} {rows : List Row}
    (h : TemplatedBy templates rows) (c : Cand) :
    TemplatedBy templates (rows ++ [mkRowP templates c rows.length]) := by
  intro i hi
  rw [List.length_append, List.length_cons, List.length_nil] at hi
  by_cases hlt : i < rows.length
  · have e1 : (rows ++ [mkRowP templates c rows.length])[i] = rows[i] :=
      List.getElem_append_left hlt
    rw [e1]
    exact h i hlt
  · have hieq : i = rows.length := by omega
    have e1 : (rows ++ [mkRowP templates c rows.length])[i] = mkRowP templates c rows.length :=
      List.getElem_concat_length rows _ i hieq _
    rw [e1, hieq]
    exact ⟨rfl, rfl⟩

theorem firstPassGo_templated (templates : List (String × String)) (target : Nat)
    (l : List Cand) : ∀ (rows : List Row) (seen : List String),
    TemplatedBy templates rows →
    TemplatedBy templates (firstPassGo templates target l rows seen).1 := by
  induction l with
  | nil =>
    intro rows seen h
    rw [firstPassGo_nil]
    exact h
  | cons c rest ih =>
    intro rows seen h
    by_cases hcv : c.verb ∈ seen
    · rw [firstPassGo_cons_mem hcv]
      exact ih _ _ h
    · by_cases hbreak : target ≤ rows.length + 1
      · rw [firstPassGo_cons_break hcv hbreak]
        exact templatedBy_push h c
      · rw [firstPassGo_cons_go hcv (by omega)]
        exact ih _ _ (templatedBy_push h c)

theorem wrapGo_templated (templates : List (String × String)) (target : Nat)
    (cands : List Cand) : ∀ (fuel i : Nat) (rows : List Row) (seen : List String)
    (res : List Row × List String), TemplatedBy templates rows →
    wrapGo templates target cands fuel i rows seen = some res →
    TemplatedBy templates res.1 := by
  intro fuel
  induction fuel with
  | zero =>
    intro i rows seen res h hw
    rw [wrapGo] at hw
    by_cases hg : target ≤ rows.length
    · rw [if_pos hg] at hw
      cases hw
      exact h
    · rw [if_neg hg] at hw
      cases hw
  | succ f ihf =>
    intro i rows seen res h hw
    rw [wrapGo] at hw
    by_cases hg : target ≤ rows.length
    · rw [if_pos hg] at hw
      cases hw
      exact h
    · rw [if_neg hg] at hw
      simp only [contains_eq_decide_mem] at hw
      by_cases hcv : (cands.getD (i % cands.length) ("", "", "")).verb ∈ seen
      · simp only [hcv, decide_True, if_true] at hw
        exact ihf _ _ _ _ h hw
      · simp only [hcv, decide_False, Bool.false_eq_true, if_false] at hw
        exact ihf _ _ _ _ (templatedBy_push h _) hw

/-- Every selection result satisfies the positional template invariant. -/
theorem selectRowsP_templated (templates : List (String × String)) (target : Nat)
    (cands : List Cand) (fuel : Nat) (rows : List Row)
    (h : selectRowsP templates target cands fuel = some rows) :
    TemplatedBy templates rows := by
  rw [selectRowsP] at h
  obtain ⟨res, hres, hmap⟩ := Option.map_eq_some'.mp h
  have h1 := firstPassGo_templated templates target cands [] [] (templatedBy_nil templates)
  have h2 := wrapGo_templated templates target cands fuel 0 _ _ res h1 hres
  rw [← hmap]
  exact h2

/-! ### Claim theorems -/

/-- C1: the claim states that on a pool with fewer than 1000 distinct headwords
the selector (including its wraparound pass) still terminates and yields the
pool's capacity without error. The code violates this: the candidate list is
already duplicate-free, so once the first pass exhausts it every headword is
seen and the wraparound `while len(rows) < 1000` loop can never append a row
nor exit — it runs forever. This theorem evaluates the code at such a failing
input (a one-candidate pool): for every fuel the loop is still running. -/
theorem c1_small_pool_selector_never_terminates (fuel : Nat) :
    selectRowsP PHRASE_TEMPLATES 1000 [("дел-", "делать", "to do; to make")] fuel = none := by
  rw [selectRowsP_char PHRASE_TEMPLATES [("дел-", "делать", "to do; to make")] 1000
    (by omega) (by decide) (by decide) fuel]
  rw [if_neg (by decide)]

/-- C2: in the final generated row set (fixed seed tables, target 1000) the
headword (`russian`) values of all rows are pairwise distinct, so there is
exactly one row per selected headword. Stated for every fuel value: whenever
`main`'s row selection produces a result, its headwords are `Nodup`. -/
theorem c2_final_rows_headwords_distinct (fuel : Nat) :
    (((mainRows fuel).getD []).map Row.russian).Nodup := by
  cases h : mainRows fuel with
  | none => simp
  | some rows =>
    rw [mainRows] at h
    simpa using selectRowsP_russians_nodup PHRASE_TEMPLATES 1000 build_candidate_forms
      fuel rows h

/-- C3: every mechanically-prefixed candidate originates from a base entry with
no curated-derivative entry (the prefix-skip rule); the Form Generator emits
the curated triple `("ид-", "войти", "to enter (pfv)")` — it carries идти's tag
"ид-" and survives into the deduplicated output — and no emitted candidate at
all has a headword of the form `prefix + "идти"`. -/
theorem c3_curated_skip_rule :
    (∀ c ∈ prefixedPartP BASE_VERBS CURATED_DERIVS PREFIXES,
      ∃ e, e ∈ BASE_VERBS ∧ (CURATED_DERIVS.any (fun kp => kp.1 == e.verb)) = false ∧
        ∃ p, p ∈ PREFIXES ∧ c = (e.root, p ++ e.verb, e.gloss ++ " (prefixed)")) ∧
    ("ид-", "войти", "to enter (pfv)") ∈ build_candidate_forms ∧
    (∀ c ∈ candidatesRawP BASE_VERBS CURATED_DERIVS PREFIXES,
      ∀ p ∈ PREFIXES, ¬(c.verb = p ++ "идти")) := by
  have hb : (candidatesRawP BASE_VERBS CURATED_DERIVS PREFIXES).all
      (fun c => PREFIXES.all (fun p => !(c.verb == p ++ "идти"))) = true := by decide
  refine ⟨?_, by decide, ?_⟩
  · intro c hc
    obtain ⟨e, he, hcd, p, hp, _, hceq⟩ := mem_prefixedPartP hc
    exact ⟨e, he, hcd, p, hp, hceq⟩
  · intro c hc p hp
    have h1 := List.all_eq_true.mp hb c hc
    have h2 := List.all_eq_true.mp h1 p hp
    simpa using h2

/-- C3 witness: the first mechanically-prefixed candidate of the script's
tables, `("дел-", "поделать", "to do; to make (prefixed)")`, indeed originates
from a curated-free base entry. -/
theorem c3_curated_skip_rule_witness :
    ∃ e, e ∈ BASE_VERBS ∧ (CURATED_DERIVS.any (fun kp => kp.1 == e.verb)) = false ∧
      ∃ p, p ∈ PREFIXES ∧
        (("дел-", "поделать", "to do; to make (prefixed)") : Cand) =
          (e.root, p ++ e.verb, e.gloss ++ " (prefixed)") :=
  c3_curated_skip_rule.1 ("дел-", "поделать", "to do; to make (prefixed)") (by decide)

/-- C4: the row at position `i` of any selection result draws its phrase pair
from template index `i mod 5` (5 = number of phrase templates), substituting
the row's own headword into the single slot of both templates; the index
depends only on the position. -/
theorem c4_template_round_robin (target fuel : Nat) (cands : List Cand) (rows : List Row)
    (h : selectRowsP PHRASE_TEMPLATES target cands fuel = some rows)
    (i : Nat) (hi : i < rows.length) :
    (rows.get ⟨i, hi⟩).phrase_ru =
      ((PHRASE_TEMPLATES.getD (i % 5) ("", "")).1).replace "{inf}"
        (rows.get ⟨i, hi⟩).russian ∧
    (rows.get ⟨i, hi⟩).literal_en =
      ((PHRASE_TEMPLATES.getD (i % 5) ("", "")).2).replace "{inf}"
        (rows.get ⟨i, hi⟩).russian := by
  have hT := selectRowsP_templated PHRASE_TEMPLATES target cands fuel rows h i hi
  rw [List.get_eq_getElem]
  exact hT

/-- Candidate list for the C4 witness: eight distinct headwords with
"работать" at position 7 (the spec's example scenario). -/
def c4cands : List Cand :=
  [("дел-", "делать", "to do; to make"), ("сказ-", "сказать", "to say (pfv)"),
   ("говор-", "говорить", "to speak; to talk"), ("ид-", "идти", "to go (uni-dir)"),
   ("ход-", "ходить", "to go (multi-dir)"), ("вид-", "видеть", "to see"),
   ("смотр-", "смотреть", "to watch; to look"), ("работ-", "работать", "to work")]

/-- Rows produced for the C4 witness run. -/
def c4rows : List Row := (selectRowsP PHRASE_TEMPLATES 8 c4cands 0).getD []

/-- Bound used by the C4 witness. -/
theorem c4rows_len7 : 7 < c4rows.length := by decide

/-- C4 witness: selecting "работать" at position 7 uses template index
`7 mod 5 = 2`. -/
theorem c4_template_round_robin_witness :
    (c4rows.get ⟨7, c4rows_len7⟩).phrase_ru =
      ((PHRASE_TEMPLATES.getD (7 % 5) ("", "")).1).replace "{inf}"
        (c4rows.get ⟨7, c4rows_len7⟩).russian ∧
    (c4rows.get ⟨7, c4rows_len7⟩).literal_en =
      ((PHRASE_TEMPLATES.getD (7 % 5) ("", "")).2).replace "{inf}"
        (c4rows.get ⟨7, c4rows_len7⟩).russian :=
  c4_template_round_robin 8 0 c4cands c4rows rfl 7 c4rows_len7

/-- C5: the Form Generator's output equals the emitted candidate sequence
(base entries, then curated derivatives in table order, then prefixed forms in
base-list-then-prefix-list order) deduplicated by headword keeping the first
occurrence and preserving the order of the kept elements. -/
theorem c5_output_is_first_occurrence_dedup :
    build_candidate_forms =
      dedupSpecByVerb (basePartP BASE_VERBS ++ curatedPartP BASE_VERBS CURATED_DERIVS ++
        prefixedPartP BASE_VERBS CURATED_DERIVS PREFIXES) := by
  rw [build_candidate_forms, build_candidate_formsP, candidatesRawP, dedupByVerb_eq_spec]

/-- C6: determinism of the core pipeline: two runs with equal seed tables,
equal target and equal loop fuel produce identical row sequences. The pipeline
is a pure function of the tables and the target (the script imports `random`
but never calls it during row generation). -/
theorem c6_pipeline_deterministic (bv₁ bv₂ : List Cand)
    (cd₁ cd₂ : List (String × List (String × String))) (prefs₁ prefs₂ : List String)
    (t₁ t₂ : List (String × String)) (target₁ target₂ fuel₁ fuel₂ : Nat)
    (hbv : bv₁ = bv₂) (hcd : cd₁ = cd₂) (hp : prefs₁ = prefs₂) (ht : t₁ = t₂)
    (htar : target₁ = target₂) (hf : fuel₁ = fuel₂) :
    pipelineP bv₁ cd₁ prefs₁ t₁ target₁ fuel₁ = pipelineP bv₂ cd₂ prefs₂ t₂ target₂ fuel₂ := by
  rw [hbv, hcd, hp, ht, htar, hf]

/-- C6 witness: two runs on the script's own tables agree. -/
theorem c6_pipeline_deterministic_witness :
    pipelineP BASE_VERBS CURATED_DERIVS PREFIXES PHRASE_TEMPLATES 1000 0 =
      pipelineP BASE_VERBS CURATED_DERIVS PREFIXES PHRASE_TEMPLATES 1000 0 :=
  c6_pipeline_deterministic BASE_VERBS BASE_VERBS CURATED_DERIVS CURATED_DERIVS
    PREFIXES PREFIXES PHRASE_TEMPLATES PHRASE_TEMPLATES 1000 1000 0 0
    rfl rfl rfl rfl rfl rfl

/-- C7: every emitted curated-derivative triple carries the root of the first
base entry whose headword equals the table key (when one exists), and
otherwise the fallback root — the first 3 characters of the key followed by
"-" — which is never empty. -/
theorem c7_curated_root_resolution (bv : List Cand)
    (cd : List (String × List (String × String))) :
    ∀ c ∈ curatedPartP bv cd, ∃ kp, kp ∈ cd ∧ ∃ vg, vg ∈ kp.2 ∧
      c = (resolveRoot bv kp.1, vg.1, vg.2) ∧
      ((∃ l₁ e l₂, bv = l₁ ++ e :: l₂ ∧ e.verb = kp.1 ∧ resolveRoot bv kp.1 = e.root ∧
          ∀ x ∈ l₁, x.verb ≠ kp.1) ∨
        ((∀ x ∈ bv, x.verb ≠ kp.1) ∧ resolveRoot bv kp.1 = kp.1.take 3 ++ "-" ∧
          resolveRoot bv kp.1 ≠ "")) := by
  intro c hc
  obtain ⟨kp, hkp, vg, hvg, hceq⟩ := mem_curatedPartP hc
  refine ⟨kp, hkp, vg, hvg, hceq, ?_⟩
  rcases resolveRoot_cases bv kp.1 with h | ⟨hnone, hres⟩
  · exact Or.inl h
  · exact Or.inr ⟨hnone, hres, by rw [hres]; exact fallback_root_ne_empty kp.1⟩

/-- C7 witness: the emitted triple `("ид-", "войти", "to enter (pfv)")` of the
script's tables resolves its root through the base entry for "идти". -/
theorem c7_curated_root_resolution_witness :
    ∃ kp, kp ∈ CURATED_DERIVS ∧ ∃ vg, vg ∈ kp.2 ∧
      (("ид-", "войти", "to enter (pfv)") : Cand) =
        (resolveRoot BASE_VERBS kp.1, vg.1, vg.2) ∧
      ((∃ l₁ e l₂, BASE_VERBS = l₁ ++ e :: l₂ ∧ e.verb = kp.1 ∧
          resolveRoot BASE_VERBS kp.1 = e.root ∧ ∀ x ∈ l₁, x.verb ≠ kp.1) ∨
        ((∀ x ∈ BASE_VERBS, x.verb ≠ kp.1) ∧
          resolveRoot BASE_VERBS kp.1 = kp.1.take 3 ++ "-" ∧
          resolveRoot BASE_VERBS kp.1 ≠ "")) :=
  c7_curated_root_resolution BASE_VERBS CURATED_DERIVS
    ("ид-", "войти", "to enter (pfv)") (by decide)

/-- C8: the final row sequence is identical whichever audio mode is selected
("gtts", "espeak" or "none"): `main` computes `rows` before and independently
of the audio mode, which is only read afterwards inside `build_anki`. -/
theorem c8_rows_independent_of_audio_mode (m₁ m₂ : String) (fuel : Nat) :
    mainRowsWithAudioMode m₁ fuel = mainRowsWithAudioMode m₂ fuel := rfl

/-- C9: every mechanically-prefixed candidate's headword is `prefix + base`,
differs from the base headword (degenerate combinations are skipped by the
generator), and its gloss is the base gloss followed by " (prefixed)". -/
theorem c9_prefixed_nondegenerate (bv : List Cand)
    (cd : List (String × List (String × String))) (prefs : List String) :
    ∀ c ∈ prefixedPartP bv cd prefs, ∃ e, e ∈ bv ∧ ∃ p, p ∈ prefs ∧
      p ++ e.verb ≠ e.verb ∧ c.verb = p ++ e.verb ∧ c.gloss = e.gloss ++ " (prefixed)" := by
  intro c hc
  obtain ⟨e, he, _, p, hp, hne, hceq⟩ := mem_prefixedPartP hc
  refine ⟨e, he, p, hp, hne, ?_, ?_⟩
  · rw [hceq]
    rfl
  · rw [hceq]
    rfl

/-- C9 witness: the prefixed candidate `("зна́л-" family) "подумать"` — the
triple `("дум-", "подумать", "to think (prefixed)")` — arises from prefix "по"
on base "думать" and satisfies the non-degeneracy guard. -/
theorem c9_prefixed_nondegenerate_witness :
    ∃ e, e ∈ BASE_VERBS ∧ ∃ p, p ∈ PREFIXES ∧ p ++ e.verb ≠ e.verb ∧
      Cand.verb ("дум-", "подумать", "to think (prefixed)") = p ++ e.verb ∧
      Cand.gloss ("дум-", "подумать", "to think (prefixed)") = e.gloss ++ " (prefixed)" :=
  c9_prefixed_nondegenerate BASE_VERBS CURATED_DERIVS PREFIXES
    ("дум-", "подумать", "to think (prefixed)") (by decide)

/-- C10: the candidate sequence handed to the selector is duplicate-free by
headword (for any seed tables), so the selector's duplicate check never skips
and the wraparound pass never appends: the result is exactly the first
`min(1000, pool size)` candidates in order, each paired with its round-robin
phrases — and when the pool has fewer than 1000 candidates the wraparound
loop never terminates (`none` for every fuel). -/
theorem c10_selector_take_min (fuel : Nat) :
    (∀ (bv : List Cand) (cd : List (String × List (String × String)))
        (prefs : List String),
      ((build_candidate_formsP bv cd prefs).map Cand.verb).Nodup) ∧
    (∀ cands : List Cand, (cands.map Cand.verb).Nodup → cands ≠ [] →
      selectRowsP PHRASE_TEMPLATES 1000 cands fuel =
        if 1000 ≤ cands.length then
          some (rowsOf PHRASE_TEMPLATES (cands.take 1000) 0)
        else none) := by
  constructor
  · intro bv cd prefs
    exact dedupByVerb_verbs_nodup _
  · intro cands hnd hne
    exact selectRowsP_char PHRASE_TEMPLATES cands 1000 (by omega) hnd hne fuel

/-- C10 witness: on a duplicate-free one-candidate pool the selector follows
the characterization (here: the pool is smaller than 1000, so no fuel ends the
wraparound loop). -/
theorem c10_selector_take_min_witness :
    selectRowsP PHRASE_TEMPLATES 1000 [("дум-", "думать", "to think")] 3 =
      if 1000 ≤ ([("дум-", "думать", "to think")] : List Cand).length then
        some (rowsOf PHRASE_TEMPLATES ([("дум-", "думать", "to think")].take 1000) 0)
      else none :=
  (c10_selector_take_min 3).2 [("дум-", "думать", "to think")] (by decide) (by decide)
